import Mathlib

/-!
Shallow embedding of `examples/PPO/train.py`: episode rollouts with
observation normalization against a running scaler, batch collection,
reward discounting / advantage estimation, and the main training loop.

Scalar numerics are modelled over ℚ.  The environment, the agent and the
scaler are abstract parameters (structures of functions), and the episode
loops are fuel-based recursions returning `Option`.  Every rollout
function additionally returns the list of externally visible events
(scaler reads and updates, policy calls, environment steps) in program
order, so that call-order invariants of the script can be stated and
proved as theorems about traces.
-/

namespace PPOTrain

/-- Result of one environment step, mirroring the 4-tuple returned by
`env.step(action)`: next observation, reward, done flag, next internal state. -/
structure StepOut (σ : Type) where
  obs : List ℚ
  reward : ℚ
  done : Bool
  state : σ

/-- Abstract gym-style environment with internal state `σ`.  `reset` consumes
and produces the internal state together with the initial observation;
`action_low`/`action_high` model `env.action_space.low[0]` / `high[0]`. -/
structure Env (σ : Type) where
  reset : σ → σ × List ℚ
  step : σ → List ℚ → StepOut σ
  action_low : ℚ
  action_high : ℚ

/-- Abstract agent: the three query methods of `MujocoAgent` used by the
script.  Stochastic sampling is modelled as an arbitrary function of the
normalized observation (a determinization of the sampler). -/
structure Agent where
  policy_sample : List ℚ → List ℚ
  policy_predict : List ℚ → List ℚ
  value_predict : List (List ℚ) → List ℚ

/-- Abstract scaler over an opaque statistics state `S`: `get` returns the
current (scale, offset) vectors and `update` folds a batch of unscaled
observations into the statistics.  The `Scaler` class itself lives in the
example's `utils.py`, which is outside `src/`; the claims quantify over
arbitrary scaler behaviour, so it stays abstract here. -/
structure ScalerOps (S : Type) where
  get : S → List ℚ × List ℚ
  update : S → List (List ℚ) → S

/-- Externally visible events of the script, recorded in program order. -/
inductive Event where
  | scalerGet (scale offset : List ℚ)
  | normalize (scale offset raw : List ℚ)
  | policySample (obs : List ℚ)
  | policyPredict (obs : List ℚ)
  | envStep (action : List ℚ) (reward : ℚ)
  | scalerUpdate (data : List (List ℚ))
  | calcDSR (rewards : List ℚ) (gamma : ℚ)
  | calcGAE (rewards values : List ℚ) (gamma lam : ℚ)
  | policyLearn (obs actions : List (List ℚ)) (advantages : List ℚ)
  | valueLearn (obs : List (List ℚ)) (returns : List ℚ)
  deriving DecidableEq

/-- In-place write to the last entry, modelling `xs[-1] = v` on a numpy
vector (on the empty list, unreachable in the script, it is the identity). -/
def setLast : List ℚ → ℚ → List ℚ
  | [], _ => []
  | [_], v => [v]
  | x :: y :: l, v => x :: setLast (y :: l) v

/-- Elementwise `np.clip(a, -1.0, 1.0)`. -/
def npClip (a : List ℚ) : List ℚ :=
  a.map fun x => min (max x (-1)) 1

/-- Modelled from the spec: `parl.utils.action_mapping` is not under `src/`;
the spec says it maps a clipped input in [-1, 1] linearly onto
[action_space.low, action_space.high], i.e. -1 to low and 1 to high. -/
def action_mapping (a : List ℚ) (low high : ℚ) : List ℚ :=
  a.map fun x => low + (x + 1) * (high - low) / 2

/-- The line `obs = (obs - offset) * scale`, elementwise over the row. -/
def normalizeObs (obs offset scale : List ℚ) : List ℚ :=
  List.zipWith (fun p s => p * s) (List.zipWith (fun o f => o - f) obs offset) scale

/-- Per-episode data collected by `run_train_episode`. -/
structure TrainResult where
  observes : List (List ℚ)
  actions : List (List ℚ)
  rewards : List ℚ
  unscaled_obs : List (List ℚ)
  deriving DecidableEq

/-- Concatenated batch returned by `collect_trajectories`. -/
structure Batch where
  observes : List (List ℚ)
  actions : List (List ℚ)
  rewards : List ℚ
  deriving DecidableEq

/-- State of the episode loop: environment state, current raw observation,
and the time-step feature `step`. -/
structure EpState (σ : Type) where
  env : σ
  obs : List ℚ
  t : ℚ

section Episodes

variable {σ S : Type} (env : Env σ) (agent : Agent) (scale offset : List ℚ)

/-- Action computed in one training step: sample, clip to [-1, 1], rescale
to the action bounds (lines 41-44 of `train.py`). -/
def trainAct (normed : List ℚ) : List ℚ :=
  action_mapping (npClip (agent.policy_sample normed)) env.action_low env.action_high

/-- Action computed in one evaluation step: deterministic prediction
rescaled to the action bounds, with no clipping (lines 70-72). -/
def evalAct (normed : List ℚ) : List ℚ :=
  action_mapping (agent.policy_predict normed) env.action_low env.action_high

/-- One iteration of the training while-loop, as a transformer of the
episode state (the data-collection side effects are handled separately). -/
def trainStepOnce (st : EpState σ) : EpState σ :=
  let raw := st.obs ++ [st.t]
  let normed := normalizeObs raw offset scale
  let out := env.step st.env (trainAct env agent normed)
  ⟨out.state, out.obs, st.t + 1 / 1000⟩

/-- Episode state after `k` iterations of the training loop. -/
def trainTraj (st : EpState σ) : Nat → EpState σ
  | 0 => st
  | k + 1 => trainTraj (trainStepOnce env agent scale offset st) k

/-- Raw observation with the appended time-step feature at iteration `k`. -/
def trainRaw (st : EpState σ) (k : Nat) : List ℚ :=
  (trainTraj env agent scale offset st k).obs ++ [(trainTraj env agent scale offset st k).t]

/-- Normalized observation at iteration `k`. -/
def trainNormed (st : EpState σ) (k : Nat) : List ℚ :=
  normalizeObs (trainRaw env agent scale offset st k) offset scale

/-- Action taken at iteration `k` of a training episode. -/
def trainActionAt (st : EpState σ) (k : Nat) : List ℚ :=
  trainAct env agent (trainNormed env agent scale offset st k)

/-- Environment step outcome at iteration `k` of a training episode. -/
def trainOut (st : EpState σ) (k : Nat) : StepOut σ :=
  env.step (trainTraj env agent scale offset st k).env (trainActionAt env agent scale offset st k)

/-- Events emitted by iteration `k` of a training episode. -/
def trainEvsAt (st : EpState σ) (k : Nat) : List Event :=
  [Event.normalize scale offset (trainRaw env agent scale offset st k),
   Event.policySample (trainNormed env agent scale offset st k),
   Event.envStep (trainActionAt env agent scale offset st k)
     ((trainOut env agent scale offset st k).reward)]

/-- The while-loop of `run_train_episode` (lines 33-51), as a fuel-based
recursion: `none` means the fuel ran out before the environment reported
done.  Each iteration records the raw observation with the time-step
feature, the normalized observation, the clipped and rescaled sampled
action, and the reward, exactly as the source does. -/
def trainSteps : Nat → EpState σ → Option (TrainResult × σ × List Event)
  | 0, _ => none
  | fuel + 1, st =>
    let raw := st.obs ++ [st.t]
    let normed := normalizeObs raw offset scale
    let act := trainAct env agent normed
    let out := env.step st.env act
    let evs : List Event :=
      [Event.normalize scale offset raw, Event.policySample normed,
       Event.envStep act out.reward]
    if out.done then
      some (⟨[normed], [act], [out.reward], [raw]⟩, out.state, evs)
    else
      match trainSteps fuel ⟨out.state, out.obs, st.t + 1 / 1000⟩ with
      | none => none
      | some (r, sf, evs2) =>
        some (⟨normed :: r.observes, act :: r.actions, out.reward :: r.rewards,
               raw :: r.unscaled_obs⟩, sf, evs ++ evs2)

/-- Embeds `run_train_episode(env, agent, scaler)` (lines 25-54): reset the
environment, read the scaler once, overwrite the last entries of the read
(scale, offset) pair with `1` / `0`, then run the step loop with the
time-step feature starting at `0`. -/
def run_train_episode (ops : ScalerOps S) (sc : S) (fuel : Nat) (envSt : σ) :
    Option (TrainResult × σ × List Event) :=
  let r0 := env.reset envSt
  let g := ops.get sc
  match trainSteps env agent (setLast g.1 1) (setLast g.2 0) fuel ⟨r0.1, r0.2, 0⟩ with
  | none => none
  | some (r, sf, evs) => some (r, sf, Event.scalerGet g.1 g.2 :: evs)

/-- One iteration of the evaluation while-loop as a state transformer. -/
def evalStepOnce (st : EpState σ) : EpState σ :=
  let raw := st.obs ++ [st.t]
  let normed := normalizeObs raw offset scale
  let out := env.step st.env (evalAct env agent normed)
  ⟨out.state, out.obs, st.t + 1 / 1000⟩

/-- Episode state after `k` iterations of the evaluation loop. -/
def evalTraj (st : EpState σ) : Nat → EpState σ
  | 0 => st
  | k + 1 => evalTraj (evalStepOnce env agent scale offset st) k

/-- Raw observation with appended time-step feature at iteration `k`. -/
def evalRaw (st : EpState σ) (k : Nat) : List ℚ :=
  (evalTraj env agent scale offset st k).obs ++ [(evalTraj env agent scale offset st k).t]

/-- Normalized observation at iteration `k` of an evaluation episode. -/
def evalNormed (st : EpState σ) (k : Nat) : List ℚ :=
  normalizeObs (evalRaw env agent scale offset st k) offset scale

/-- Action taken at iteration `k` of an evaluation episode. -/
def evalActionAt (st : EpState σ) (k : Nat) : List ℚ :=
  evalAct env agent (evalNormed env agent scale offset st k)

/-- Environment step outcome at iteration `k` of an evaluation episode. -/
def evalOut (st : EpState σ) (k : Nat) : StepOut σ :=
  env.step (evalTraj env agent scale offset st k).env (evalActionAt env agent scale offset st k)

/-- Events emitted by iteration `k` of an evaluation episode. -/
def evalEvsAt (st : EpState σ) (k : Nat) : List Event :=
  [Event.normalize scale offset (evalRaw env agent scale offset st k),
   Event.policyPredict (evalNormed env agent scale offset st k),
   Event.envStep (evalActionAt env agent scale offset st k)
     ((evalOut env agent scale offset st k).reward)]

/-- The while-loop of `run_evaluate_episode` (lines 64-79): like the
training loop, but the deterministic `policy_predict` output is rescaled
without clipping, and only the rewards are collected. -/
def evalSteps : Nat → EpState σ → Option (List ℚ × σ × List Event)
  | 0, _ => none
  | fuel + 1, st =>
    let raw := st.obs ++ [st.t]
    let normed := normalizeObs raw offset scale
    let act := evalAct env agent normed
    let out := env.step st.env act
    let evs : List Event :=
      [Event.normalize scale offset raw, Event.policyPredict normed,
       Event.envStep act out.reward]
    if out.done then
      some ([out.reward], out.state, evs)
    else
      match evalSteps fuel ⟨out.state, out.obs, st.t + 1 / 1000⟩ with
      | none => none
      | some (rs, sf, evs2) => some (out.reward :: rs, sf, evs ++ evs2)

/-- Embeds `run_evaluate_episode(env, agent, scaler)` (lines 57-80): returns the
sum of the episode's rewards. -/
def run_evaluate_episode (ops : ScalerOps S) (sc : S) (fuel : Nat) (envSt : σ) :
    Option (ℚ × σ × List Event) :=
  let r0 := env.reset envSt
  let g := ops.get sc
  match evalSteps env agent (setLast g.1 1) (setLast g.2 0) fuel ⟨r0.1, r0.2, 0⟩ with
  | none => none
  | some (rs, sf, evs) => some (rs.sum, sf, Event.scalerGet g.1 g.2 :: evs)

/-- The `for e in range(episodes)` loop of `collect_trajectories`
(lines 85-91): every episode is run against the same scaler state `sc`;
only the environment state is threaded through. -/
def collectLoop (ops : ScalerOps S) (sc : S) (fuel : Nat) :
    Nat → σ → Option (List TrainResult × σ × List Event)
  | 0, envSt => some ([], envSt, [])
  | e + 1, envSt =>
    match run_train_episode env agent ops sc fuel envSt with
    | none => none
    | some (r, envSt2, evs) =>
      match collectLoop ops sc fuel e envSt2 with
      | none => none
      | some (rs, envSt3, evs2) => some (r :: rs, envSt3, evs ++ evs2)

/-- Embeds `collect_trajectories(env, agent, scaler, episodes)` (lines 83-95):
run the episodes, then update the scaler once with the concatenation of
all unscaled observations, and return the concatenated batch. -/
def collect_trajectories (ops : ScalerOps S) (sc : S) (episodes fuel : Nat) (envSt : σ) :
    Option (Batch × S × σ × List Event) :=
  match collectLoop env agent ops sc fuel episodes envSt with
  | none => none
  | some (rs, envSt2, evs) =>
    some (⟨(rs.map TrainResult.observes).flatten, (rs.map TrainResult.actions).flatten,
           (rs.map TrainResult.rewards).flatten⟩,
          ops.update sc ((rs.map TrainResult.unscaled_obs).flatten),
          envSt2,
          evs ++ [Event.scalerUpdate ((rs.map TrainResult.unscaled_obs).flatten)])

end Episodes

/-- Modelled from the spec: `calc_discount_sum_rewards` lives in the
example's `utils.py`, which is not under `src/`.  The spec describes it as
the reverse cumulative discounted sum of rewards: entry `i` is
`r i + gamma * entry (i+1)`, with the sum past the end taken as `0`. -/
def calc_discount_sum_rewards (rewards : List ℚ) (gamma : ℚ) : List ℚ :=
  match rewards with
  | [] => []
  | r :: rest =>
    let tail := calc_discount_sum_rewards rest gamma
    (r + gamma * tail.headD 0) :: tail

/-- Modelled from the spec: `calc_gae` lives in the example's `utils.py`,
which is not under `src/`.  The spec describes generalized advantage
estimation from the reward sequence and value predictions: the TD
residuals `r i - v i + gamma * v (i+1)` (with the value past the end taken
as `0`) are discounted by `gamma * lam`. -/
def calc_gae (rewards values : List ℚ) (gamma lam : ℚ) : List ℚ :=
  calc_discount_sum_rewards
    (List.zipWith (fun r vv => r - vv.1 + gamma * vv.2) rewards
      (List.zip values (values.tail ++ [0])))
    (gamma * lam)

/-- Mean of a list, as `np.mean` (over ℚ; the empty mean is 0/0 = 0). -/
def listMean (xs : List ℚ) : ℚ := xs.sum / xs.length

/-- Population variance of a list, as the square of `np.std` before the
square root is taken. -/
def listVar (xs : List ℚ) : ℚ := listMean (xs.map fun x => (x - listMean xs) ^ 2)

/-- The advantage normalization of lines 137-138:
`(advantages - advantages.mean()) / (advantages.std() + 1e-6)`.
The square root inside `np.std` has no exact counterpart in ℚ, so it is
abstracted as a parameter `sqrtFn` applied to the variance. -/
def normalizeAdv (sqrtFn : ℚ → ℚ) (xs : List ℚ) : List ℚ :=
  xs.map fun x => (x - listMean xs) / (sqrtFn (listVar xs) + 1 / 1000000)

section MainLoop

variable {σ S : Type} (env : Env σ) (agent : Agent)

/-- One iteration of the training while-loop of `main` (lines 121-142),
without the logging: collect a batch, predict values, scale the rewards by
`1 - gamma`, compute discounted returns and advantages, normalize the
advantages, and invoke the two learning steps (recorded as events). -/
def mainIteration (ops : ScalerOps S) (sqrtFn : ℚ → ℚ) (gamma lam : ℚ) (sc : S)
    (episodes_per_batch fuel : Nat) (envSt : σ) : Option (S × σ × List Event) :=
  match collect_trajectories env agent ops sc episodes_per_batch fuel envSt with
  | none => none
  | some (b, sc2, envSt2, evs) =>
    let pred_values := agent.value_predict b.observes
    let scale_rewards := b.rewards.map fun r => r * (1 - gamma)
    let discount_sum_rewards := calc_discount_sum_rewards scale_rewards gamma
    let advantages := normalizeAdv sqrtFn (calc_gae scale_rewards pred_values gamma lam)
    some (sc2, envSt2,
      evs ++ [Event.calcDSR scale_rewards gamma,
              Event.calcGAE scale_rewards pred_values gamma lam,
              Event.policyLearn b.observes b.actions advantages,
              Event.valueLearn b.observes discount_sum_rewards])

end MainLoop

/-- Final value of the `episode` counter of the while-loop in `main`
(lines 120-124): starting from `episode`, repeat `episode += epb` while
`episode < n`.  Total because `epb` is positive. -/
def episodesRun (n epb : Nat) (h : 0 < epb) (episode : Nat) : Nat :=
  if _h2 : episode < n then episodesRun n epb h (episode + epb) else episode
termination_by n - episode
decreasing_by omega

/-- Whether an event is a scaler read. -/
def Event.isScalerGet : Event → Bool
  | .scalerGet .. => true
  | _ => false

/-- Whether an event is a scaler statistics update. -/
def Event.isScalerUpdate : Event → Bool
  | .scalerUpdate .. => true
  | _ => false

/-- Whether an event is a stochastic policy sample. -/
def Event.isPolicySample : Event → Bool
  | .policySample .. => true
  | _ => false

/-- The rewards argument of a discounted-sum call, if the event is one. -/
def Event.dsrRewards : Event → Option (List ℚ)
  | .calcDSR r _ => some r
  | _ => none

/-- The rewards argument of a GAE call, if the event is one. -/
def Event.gaeRewards : Event → Option (List ℚ)
  | .calcGAE r _ _ _ => some r
  | _ => none

/-- The advantages argument of a policy-learn call, if the event is one. -/
def Event.learnAdv : Event → Option (List ℚ)
  | .policyLearn _ _ a => some a
  | _ => none

/-- The raw observation of a normalization event, if the event is one. -/
def Event.rawOfNormalize : Event → Option (List ℚ)
  | .normalize _ _ raw => some raw
  | _ => none

/-- The action passed to the environment, if the event is an env step. -/
def Event.actionOfEnvStep : Event → Option (List ℚ)
  | .envStep a _ => some a
  | _ => none

/-- A tiny concrete environment used to instantiate the theorems below:
one-dimensional observation `[4]`, every episode ends after one step, the
internal state counts steps, and the action bounds are [-2, 2]. -/
def wEnv : Env Nat where
  reset := fun s => (s, [4])
  step := fun s _ => ⟨[4], 2, true, s + 1⟩
  action_low := -2
  action_high := 2

/-- A concrete agent: the sampler returns the out-of-range action `[3]`
(so clipping to `[1]` is observable), and so does the deterministic
predictor (so the absence of clipping in evaluation is observable). -/
def wAgent : Agent where
  policy_sample := fun _ => [3]
  policy_predict := fun _ => [3]
  value_predict := fun l => l.map fun _ => 0

/-- A concrete scaler: statistics state counts updated rows; `get` returns
constant vectors whose last entries are deliberately not 1 and 0. -/
def wOps : ScalerOps Nat where
  get := fun _ => ([3, 5], [7, 9])
  update := fun s d => s + d.length

/-! Basic lemmas about the list helpers -/

theorem setLast_length : ∀ (l : List ℚ) (v : ℚ), (setLast l v).length = l.length
  | [], _ => rfl
  | [_], _ => rfl
  | x :: y :: l, v => by
    simp [setLast, setLast_length (y :: l) v]

theorem setLast_getLast? : ∀ (l : List ℚ) (v : ℚ), l ≠ [] → (setLast l v).getLast? = some v
  | [], _, h => absurd rfl h
  | [_], _, _ => rfl
  | x :: y :: l, v, _ => by
    have ih := setLast_getLast? (y :: l) v (List.cons_ne_nil y l)
    show (x :: setLast (y :: l) v).getLast? = some v
    cases h : setLast (y :: l) v with
    | nil => rw [h] at ih; simp at ih
    | cons a t => rw [List.getLast?_cons_cons, ← h]; exact ih

theorem zipWith_getElem? (f : ℚ → ℚ → ℚ) : ∀ (l1 l2 : List ℚ) (i : Nat),
    (List.zipWith f l1 l2)[i]? = (l1[i]?).bind fun a => (l2[i]?).map fun b => f a b
  | [], _, _ => by simp
  | _ :: _, [], _ => by simp
  | a :: l1, b :: l2, 0 => by simp
  | a :: l1, b :: l2, i + 1 => by
    simpa using zipWith_getElem? f l1 l2 i

theorem normalizeObs_length (obs offset scale : List ℚ) :
    (normalizeObs obs offset scale).length =
      min (min obs.length offset.length) scale.length := by
  simp [normalizeObs]

theorem normalizeObs_getElem? (obs offset scale : List ℚ) (i : Nat) :
    (normalizeObs obs offset scale)[i]? =
      (obs[i]?).bind fun o => (offset[i]?).bind fun f => (scale[i]?).map fun s => (o - f) * s := by
  simp only [normalizeObs, zipWith_getElem?]
  cases obs[i]? <;> cases offset[i]? <;> cases scale[i]? <;> simp

/-- If the scale ends in 1 and the offset ends in 0 and the three vectors
have the same length, normalization leaves the last entry unchanged. -/
theorem normalizeObs_getLast? (obs offset scale : List ℚ)
    (hlf : obs.length = offset.length) (hls : obs.length = scale.length)
    (hf : offset.getLast? = some 0) (hs : scale.getLast? = some 1) :
    (normalizeObs obs offset scale).getLast? = obs.getLast? := by
  have hoff : offset ≠ [] := by
    intro hnil; rw [hnil] at hf; simp at hf
  have hn : 0 < obs.length := by
    rw [hlf]; exact List.length_pos.mpr hoff
  have hlen : (normalizeObs obs offset scale).length = obs.length := by
    rw [normalizeObs_length, ← hlf, ← hls]; omega
  rw [List.getLast?_eq_getElem?, List.getLast?_eq_getElem?, hlen, normalizeObs_getElem?]
  rw [List.getLast?_eq_getElem?] at hf hs
  rw [← hlf] at hf
  rw [← hls] at hs
  obtain ⟨x, hx⟩ : ∃ x, obs[obs.length - 1]? = some x := by
    have : obs.length - 1 < obs.length := by omega
    exact ⟨obs[obs.length - 1], List.getElem?_eq_getElem this⟩
  rw [hx, hf, hs]
  simp

theorem range_map_succ {α : Type} (f : Nat → α) (L : Nat) :
    (List.range (L + 1)).map f = f 0 :: (List.range L).map fun k => f (k + 1) := by
  rw [List.range_succ_eq_map, List.map_cons, List.map_map]
  rfl

theorem range_flatMap_succ {α : Type} (g : Nat → List α) (L : Nat) :
    (List.range (L + 1)).flatMap g = g 0 ++ (List.range L).flatMap fun k => g (k + 1) := by
  rw [List.range_succ_eq_map, List.flatMap_cons, List.flatMap_map]

/-! Unfolding and characterization of the training episode loop -/

section EpisodeLemmas

variable {σ S : Type} (env : Env σ) (agent : Agent) (scale offset : List ℚ)

theorem trainSteps_succ (fuel : Nat) (st : EpState σ) :
    trainSteps env agent scale offset (fuel + 1) st =
      (if (trainOut env agent scale offset st 0).done then
        some (⟨[trainNormed env agent scale offset st 0],
               [trainActionAt env agent scale offset st 0],
               [(trainOut env agent scale offset st 0).reward],
               [trainRaw env agent scale offset st 0]⟩,
              (trainOut env agent scale offset st 0).state,
              trainEvsAt env agent scale offset st 0)
      else
        match trainSteps env agent scale offset fuel
            (trainStepOnce env agent scale offset st) with
        | none => none
        | some (r, sf, evs2) =>
          some (⟨trainNormed env agent scale offset st 0 :: r.observes,
                 trainActionAt env agent scale offset st 0 :: r.actions,
                 (trainOut env agent scale offset st 0).reward :: r.rewards,
                 trainRaw env agent scale offset st 0 :: r.unscaled_obs⟩,
                sf, trainEvsAt env agent scale offset st 0 ++ evs2)) := rfl

theorem trainSteps_spec :
    ∀ (fuel : Nat) (st : EpState σ) (o a : List (List ℚ)) (w : List ℚ)
      (u : List (List ℚ)) (sf : σ) (evs : List Event),
      trainSteps env agent scale offset fuel st = some (⟨o, a, w, u⟩, sf, evs) →
      ∃ L : Nat, 0 < L ∧ L ≤ fuel ∧
        o = (List.range L).map (trainNormed env agent scale offset st) ∧
        a = (List.range L).map (trainActionAt env agent scale offset st) ∧
        w = (List.range L).map
          (fun k => (trainOut env agent scale offset st k).reward) ∧
        u = (List.range L).map (trainRaw env agent scale offset st) ∧
        evs = (List.range L).flatMap (trainEvsAt env agent scale offset st) ∧
        (∀ j, j + 1 < L → (trainOut env agent scale offset st j).done = false) ∧
        (trainOut env agent scale offset st (L - 1)).done = true := by
  intro fuel
  induction fuel with
  | zero =>
    intro st o a w u sf evs h
    simp [trainSteps] at h
  | succ fuel ih =>
    intro st o a w u sf evs h
    rw [trainSteps_succ] at h
    cases hd : (trainOut env agent scale offset st 0).done with
    | true =>
      rw [hd] at h
      simp only [if_true] at h
      obtain ⟨⟨ho, ha, hw, hu⟩, hsf, hevs⟩ := by simpa using h
      subst ho ha hw hu hevs
      refine ⟨1, Nat.one_pos, by omega, ?_, ?_, ?_, ?_, ?_, ?_, ?_⟩
      · rfl
      · rfl
      · rfl
      · rfl
      · simp [List.range_succ_eq_map]
      · intro j hj; omega
      · simpa using hd
    | false =>
      rw [hd] at h
      simp only [if_false, Bool.false_eq_true] at h
      cases hrec : trainSteps env agent scale offset fuel
          (trainStepOnce env agent scale offset st) with
      | none =>
        rw [hrec] at h; simp at h
      | some x =>
        obtain ⟨⟨o2, a2, w2, u2⟩, sf2, evs2⟩ := x
        rw [hrec] at h
        obtain ⟨⟨ho, ha, hw, hu⟩, hsf, hevs⟩ := by simpa using h
        subst ho ha hw hu hevs
        obtain ⟨L2, hL2pos, hL2f, ho2, ha2, hw2, hu2, he2, hdone, hlast⟩ :=
          ih _ _ _ _ _ _ _ hrec
        obtain ⟨L3, rfl⟩ : ∃ L3, L2 = L3 + 1 := ⟨L2 - 1, by omega⟩
        subst ho2 ha2 hw2 hu2 he2
        refine ⟨L3 + 2, by omega, by omega, ?_, ?_, ?_, ?_, ?_, ?_, ?_⟩
        · conv_rhs => rw [range_map_succ]
          rfl
        · conv_rhs => rw [range_map_succ]
          rfl
        · conv_rhs => rw [range_map_succ]
          rfl
        · conv_rhs => rw [range_map_succ]
          rfl
        · conv_rhs => rw [range_flatMap_succ]
          rfl
        · intro j hj
          cases j with
          | zero => exact hd
          | succ j2 => exact hdone j2 (by omega)
        · simpa using hlast

theorem evalSteps_succ (fuel : Nat) (st : EpState σ) :
    evalSteps env agent scale offset (fuel + 1) st =
      (if (evalOut env agent scale offset st 0).done then
        some ([(evalOut env agent scale offset st 0).reward],
              (evalOut env agent scale offset st 0).state,
              evalEvsAt env agent scale offset st 0)
      else
        match evalSteps env agent scale offset fuel
            (evalStepOnce env agent scale offset st) with
        | none => none
        | some (rs, sf, evs2) =>
          some ((evalOut env agent scale offset st 0).reward :: rs, sf,
                evalEvsAt env agent scale offset st 0 ++ evs2)) := rfl

theorem evalSteps_spec :
    ∀ (fuel : Nat) (st : EpState σ) (rs : List ℚ) (sf : σ) (evs : List Event),
      evalSteps env agent scale offset fuel st = some (rs, sf, evs) →
      ∃ L : Nat, 0 < L ∧ L ≤ fuel ∧
        rs = (List.range L).map
          (fun k => (evalOut env agent scale offset st k).reward) ∧
        evs = (List.range L).flatMap (evalEvsAt env agent scale offset st) ∧
        (∀ j, j + 1 < L → (evalOut env agent scale offset st j).done = false) ∧
        (evalOut env agent scale offset st (L - 1)).done = true := by
  intro fuel
  induction fuel with
  | zero =>
    intro st rs sf evs h
    simp [evalSteps] at h
  | succ fuel ih =>
    intro st rs sf evs h
    rw [evalSteps_succ] at h
    cases hd : (evalOut env agent scale offset st 0).done with
    | true =>
      rw [hd] at h
      simp only [if_true] at h
      obtain ⟨hrs, hsf, hevs⟩ := by simpa using h
      subst hrs hevs
      refine ⟨1, Nat.one_pos, by omega, ?_, ?_, ?_, ?_⟩
      · rfl
      · simp [List.range_succ_eq_map]
      · intro j hj; omega
      · simpa using hd
    | false =>
      rw [hd] at h
      simp only [if_false, Bool.false_eq_true] at h
      cases hrec : evalSteps env agent scale offset fuel
          (evalStepOnce env agent scale offset st) with
      | none =>
        rw [hrec] at h; simp at h
      | some x =>
        obtain ⟨rs2, sf2, evs2⟩ := x
        rw [hrec] at h
        obtain ⟨hrs, hsf, hevs⟩ := by simpa using h
        subst hrs hevs
        obtain ⟨L2, hL2pos, hL2f, hrs2, he2, hdone, hlast⟩ := ih _ _ _ _ hrec
        obtain ⟨L3, rfl⟩ : ∃ L3, L2 = L3 + 1 := ⟨L2 - 1, by omega⟩
        subst hrs2 he2
        refine ⟨L3 + 2, by omega, by omega, ?_, ?_, ?_, ?_⟩
        · conv_rhs => rw [range_map_succ]
          rfl
        · conv_rhs => rw [range_flatMap_succ]
          rfl
        · intro j hj
          cases j with
          | zero => exact hd
          | succ j2 => exact hdone j2 (by omega)
        · simpa using hlast

/-- The time-step feature grows by exactly 1/1000 per training step. -/
theorem trainTraj_t (st : EpState σ) (k : Nat) :
    (trainTraj env agent scale offset st k).t = st.t + k * (1 / 1000) := by
  induction k generalizing st with
  | zero => simp [trainTraj]
  | succ k ih =>
    rw [show trainTraj env agent scale offset st (k + 1) =
        trainTraj env agent scale offset (trainStepOnce env agent scale offset st) k
        from rfl, ih]
    show st.t + 1 / 1000 + (k : ℚ) * (1 / 1000) = st.t + ((k : ℕ) + 1 : ℕ) * (1 / 1000)
    push_cast
    ring

/-- The time-step feature grows by exactly 1/1000 per evaluation step. -/
theorem evalTraj_t (st : EpState σ) (k : Nat) :
    (evalTraj env agent scale offset st k).t = st.t + k * (1 / 1000) := by
  induction k generalizing st with
  | zero => simp [evalTraj]
  | succ k ih =>
    rw [show evalTraj env agent scale offset st (k + 1) =
        evalTraj env agent scale offset (evalStepOnce env agent scale offset st) k
        from rfl, ih]
    show st.t + 1 / 1000 + (k : ℚ) * (1 / 1000) = st.t + ((k : ℕ) + 1 : ℕ) * (1 / 1000)
    push_cast
    ring

theorem trainRaw_getLast? (st : EpState σ) (k : Nat) :
    (trainRaw env agent scale offset st k).getLast? =
      some (trainTraj env agent scale offset st k).t :=
  List.getLast?_concat _

theorem evalRaw_getLast? (st : EpState σ) (k : Nat) :
    (evalRaw env agent scale offset st k).getLast? =
      some (evalTraj env agent scale offset st k).t :=
  List.getLast?_concat _

/-- Shape of any event of a training-episode step trace. -/
theorem mem_trainEvs {e : Event} {L : Nat} (st : EpState σ)
    (h : e ∈ (List.range L).flatMap (trainEvsAt env agent scale offset st)) :
    ∃ k, k < L ∧
      (e = Event.normalize scale offset (trainRaw env agent scale offset st k) ∨
       e = Event.policySample (trainNormed env agent scale offset st k) ∨
       e = Event.envStep (trainActionAt env agent scale offset st k)
         ((trainOut env agent scale offset st k).reward)) := by
  rw [List.mem_flatMap] at h
  obtain ⟨k, hk, he⟩ := h
  rw [List.mem_range] at hk
  refine ⟨k, hk, ?_⟩
  simpa [trainEvsAt] using he

/-- Shape of any event of an evaluation-episode step trace. -/
theorem mem_evalEvs {e : Event} {L : Nat} (st : EpState σ)
    (h : e ∈ (List.range L).flatMap (evalEvsAt env agent scale offset st)) :
    ∃ k, k < L ∧
      (e = Event.normalize scale offset (evalRaw env agent scale offset st k) ∨
       e = Event.policyPredict (evalNormed env agent scale offset st k) ∨
       e = Event.envStep (evalActionAt env agent scale offset st k)
         ((evalOut env agent scale offset st k).reward)) := by
  rw [List.mem_flatMap] at h
  obtain ⟨k, hk, he⟩ := h
  rw [List.mem_range] at hk
  refine ⟨k, hk, ?_⟩
  simpa [evalEvsAt] using he

/-- Unfolding of `run_train_episode`: the trace starts with the single
scaler read, and the loop runs with the setLast-adjusted pair. -/
theorem run_train_episode_eq (ops : ScalerOps S) (sc : S) (fuel : Nat) (envSt : σ)
    (r : TrainResult) (sf : σ) (evs : List Event)
    (h : run_train_episode env agent ops sc fuel envSt = some (r, sf, evs)) :
    ∃ evs2, evs = Event.scalerGet (ops.get sc).1 (ops.get sc).2 :: evs2 ∧
      trainSteps env agent (setLast (ops.get sc).1 1) (setLast (ops.get sc).2 0) fuel
        ⟨(env.reset envSt).1, (env.reset envSt).2, 0⟩ = some (r, sf, evs2) := by
  simp only [run_train_episode] at h
  cases hrec : trainSteps env agent (setLast (ops.get sc).1 1) (setLast (ops.get sc).2 0)
      fuel ⟨(env.reset envSt).1, (env.reset envSt).2, 0⟩ with
  | none => rw [hrec] at h; simp at h
  | some x =>
    obtain ⟨r2, sf2, evs2⟩ := x
    rw [hrec] at h
    obtain ⟨hr, hsf, hevs⟩ := by simpa using h
    subst hr hsf hevs
    exact ⟨evs2, rfl, rfl⟩

/-- Unfolding of `run_evaluate_episode`: single scaler read at the head of
the trace, and the returned value is the sum of the loop's rewards. -/
theorem run_evaluate_episode_eq (ops : ScalerOps S) (sc : S) (fuel : Nat) (envSt : σ)
    (tot : ℚ) (sf : σ) (evs : List Event)
    (h : run_evaluate_episode env agent ops sc fuel envSt = some (tot, sf, evs)) :
    ∃ rs evs2, evs = Event.scalerGet (ops.get sc).1 (ops.get sc).2 :: evs2 ∧
      tot = rs.sum ∧
      evalSteps env agent (setLast (ops.get sc).1 1) (setLast (ops.get sc).2 0) fuel
        ⟨(env.reset envSt).1, (env.reset envSt).2, 0⟩ = some (rs, sf, evs2) := by
  simp only [run_evaluate_episode] at h
  cases hrec : evalSteps env agent (setLast (ops.get sc).1 1) (setLast (ops.get sc).2 0)
      fuel ⟨(env.reset envSt).1, (env.reset envSt).2, 0⟩ with
  | none => rw [hrec] at h; simp at h
  | some x =>
    obtain ⟨rs2, sf2, evs2⟩ := x
    rw [hrec] at h
    obtain ⟨hr, hsf, hevs⟩ := by simpa using h
    subst hsf hevs
    exact ⟨rs2, evs2, rfl, hr.symm, rfl⟩

/-- Event discipline of one training episode: the trace is the single
scaler read followed by step events only; every normalization uses the
setLast-adjusted pair of the one read. -/
theorem run_train_episode_events (ops : ScalerOps S) (sc : S) (fuel : Nat) (envSt : σ)
    (r : TrainResult) (sf : σ) (evs : List Event)
    (h : run_train_episode env agent ops sc fuel envSt = some (r, sf, evs)) :
    ∃ evs2, evs = Event.scalerGet (ops.get sc).1 (ops.get sc).2 :: evs2 ∧
      (∀ e ∈ evs2, e.isScalerGet = false) ∧
      (∀ e ∈ evs, e.isScalerUpdate = false ∧ e.dsrRewards = none ∧
        e.gaeRewards = none ∧ e.learnAdv = none) ∧
      (∀ s o raw, Event.normalize s o raw ∈ evs2 →
        s = setLast (ops.get sc).1 1 ∧ o = setLast (ops.get sc).2 0) := by
  obtain ⟨evs2, hevs, hsteps⟩ := run_train_episode_eq env agent ops sc fuel envSt r sf evs h
  obtain ⟨o1, a1, w1, u1⟩ := r
  obtain ⟨L, _, _, _, _, _, _, he, _, _⟩ :=
    trainSteps_spec env agent _ _ fuel _ o1 a1 w1 u1 sf evs2 hsteps
  subst hevs he
  refine ⟨_, rfl, ?_, ?_, ?_⟩
  · intro e he
    obtain ⟨k, _, hk⟩ := mem_trainEvs env agent _ _ _ he
    rcases hk with rfl | rfl | rfl <;> rfl
  · intro e he
    rcases List.mem_cons.mp he with rfl | he2
    · exact ⟨rfl, rfl, rfl, rfl⟩
    · obtain ⟨k, _, hk⟩ := mem_trainEvs env agent _ _ _ he2
      rcases hk with rfl | rfl | rfl <;> exact ⟨rfl, rfl, rfl, rfl⟩
  · intro s o raw hmem
    obtain ⟨k, _, hk⟩ := mem_trainEvs env agent _ _ _ hmem
    rcases hk with hk | hk | hk
    · obtain ⟨hs, ho, -⟩ := Event.normalize.inj hk
      exact ⟨hs, ho⟩
    · exact absurd hk (by simp)
    · exact absurd hk (by simp)

/-- Event discipline of one evaluation episode: single scaler read, no
stochastic sampling, no scaler update, normalization with the adjusted
pair of the one read. -/
theorem run_evaluate_episode_events (ops : ScalerOps S) (sc : S) (fuel : Nat) (envSt : σ)
    (tot : ℚ) (sf : σ) (evs : List Event)
    (h : run_evaluate_episode env agent ops sc fuel envSt = some (tot, sf, evs)) :
    ∃ evs2, evs = Event.scalerGet (ops.get sc).1 (ops.get sc).2 :: evs2 ∧
      (∀ e ∈ evs2, e.isScalerGet = false) ∧
      (∀ e ∈ evs, e.isScalerUpdate = false ∧ e.isPolicySample = false) ∧
      (∀ s o raw, Event.normalize s o raw ∈ evs2 →
        s = setLast (ops.get sc).1 1 ∧ o = setLast (ops.get sc).2 0) := by
  obtain ⟨rs, evs2, hevs, htot, hsteps⟩ :=
    run_evaluate_episode_eq env agent ops sc fuel envSt tot sf evs h
  obtain ⟨L, _, _, _, he, _, _⟩ := evalSteps_spec env agent _ _ fuel _ rs sf evs2 hsteps
  subst hevs he
  refine ⟨_, rfl, ?_, ?_, ?_⟩
  · intro e he
    obtain ⟨k, _, hk⟩ := mem_evalEvs env agent _ _ _ he
    rcases hk with rfl | rfl | rfl <;> rfl
  · intro e he
    rcases List.mem_cons.mp he with rfl | he2
    · exact ⟨rfl, rfl⟩
    · obtain ⟨k, _, hk⟩ := mem_evalEvs env agent _ _ _ he2
      rcases hk with rfl | rfl | rfl <;> exact ⟨rfl, rfl⟩
  · intro s o raw hmem
    obtain ⟨k, _, hk⟩ := mem_evalEvs env agent _ _ _ hmem
    rcases hk with hk | hk | hk
    · obtain ⟨hs, ho, -⟩ := Event.normalize.inj hk
      exact ⟨hs, ho⟩
    · exact absurd hk (by simp)
    · exact absurd hk (by simp)

/-- Characterization of the episode loop of `collect_trajectories`: the
results come from `run_train_episode` calls that all receive the same
scaler state `sc`, and the trace is a concatenation of episode traces. -/
theorem collectLoop_spec (ops : ScalerOps S) (sc : S) (fuel : Nat) :
    ∀ (n : Nat) (envSt : σ) (rs : List TrainResult) (envF : σ) (evs : List Event),
      collectLoop env agent ops sc fuel n envSt = some (rs, envF, evs) →
      rs.length = n ∧
      (∀ r ∈ rs, ∃ e0 s0 tr, run_train_episode env agent ops sc fuel e0 = some (r, s0, tr)) ∧
      (∀ e ∈ evs, ∃ e0 s0 r tr,
        run_train_episode env agent ops sc fuel e0 = some (r, s0, tr) ∧ e ∈ tr) := by
  intro n
  induction n with
  | zero =>
    intro envSt rs envF evs h
    obtain ⟨hrs, _, hevs⟩ := by simpa [collectLoop] using h
    subst hrs hevs
    exact ⟨rfl, by simp, by simp⟩
  | succ n ih =>
    intro envSt rs envF evs h
    simp only [collectLoop] at h
    cases hep : run_train_episode env agent ops sc fuel envSt with
    | none => rw [hep] at h; simp at h
    | some x =>
      obtain ⟨r, envSt2, tr⟩ := x
      rw [hep] at h
      simp only [] at h
      cases hloop : collectLoop env agent ops sc fuel n envSt2 with
      | none => rw [hloop] at h; simp at h
      | some y =>
        obtain ⟨rs2, envF2, evs2⟩ := y
        rw [hloop] at h
        obtain ⟨hrs, _, hevs⟩ := by simpa using h
        subst hrs hevs
        obtain ⟨hlen, hmem, hev⟩ := ih envSt2 rs2 envF2 evs2 hloop
        refine ⟨by simp [hlen], ?_, ?_⟩
        · intro r2 hr2
          rcases List.mem_cons.mp hr2 with rfl | hr2
          · exact ⟨envSt, envSt2, tr, hep⟩
          · exact hmem r2 hr2
        · intro e he
          rcases List.mem_append.mp he with he | he
          · exact ⟨envSt, envSt2, r, tr, hep, he⟩
          · exact hev e he

/-- Full characterization of `collect_trajectories`: the batch is the
concatenation of episode results all taken against the pre-update scaler
state, and the trace ends with the single scaler update, whose payload is
the concatenation of the batch's unscaled observations. -/
theorem collect_trajectories_spec (ops : ScalerOps S) (sc : S) (episodes fuel : Nat)
    (envSt : σ) (b : Batch) (sc2 : S) (envF : σ) (evs : List Event)
    (h : collect_trajectories env agent ops sc episodes fuel envSt = some (b, sc2, envF, evs)) :
    ∃ (rs : List TrainResult) (evs0 : List Event),
      rs.length = episodes ∧
      b = ⟨(rs.map TrainResult.observes).flatten, (rs.map TrainResult.actions).flatten,
           (rs.map TrainResult.rewards).flatten⟩ ∧
      sc2 = ops.update sc ((rs.map TrainResult.unscaled_obs).flatten) ∧
      evs = evs0 ++ [Event.scalerUpdate ((rs.map TrainResult.unscaled_obs).flatten)] ∧
      (∀ r ∈ rs, ∃ e0 s0 tr, run_train_episode env agent ops sc fuel e0 = some (r, s0, tr)) ∧
      (∀ e ∈ evs0, e.isScalerUpdate = false ∧ e.dsrRewards = none ∧
        e.gaeRewards = none ∧ e.learnAdv = none) ∧
      (∀ s o raw, Event.normalize s o raw ∈ evs0 →
        s = setLast (ops.get sc).1 1 ∧ o = setLast (ops.get sc).2 0) := by
  simp only [collect_trajectories] at h
  cases hloop : collectLoop env agent ops sc fuel episodes envSt with
  | none => rw [hloop] at h; simp at h
  | some y =>
    obtain ⟨rs, envF2, evs0⟩ := y
    rw [hloop] at h
    obtain ⟨hb, hsc, _, hevs⟩ := by simpa using h
    subst hb hsc hevs
    obtain ⟨hlen, hmem, hev⟩ := collectLoop_spec env agent ops sc fuel episodes envSt rs envF2 evs0 hloop
    refine ⟨rs, evs0, hlen, rfl, rfl, rfl, hmem, ?_, ?_⟩
    · intro e he
      obtain ⟨e0, s0, r, tr, hep, hetr⟩ := hev e he
      obtain ⟨evs2, htr, _, hall, _⟩ :=
        run_train_episode_events env agent ops sc fuel e0 r s0 tr hep
      obtain ⟨h1, h2, h3, h4⟩ := hall e hetr
      exact ⟨h1, h2, h3, h4⟩
    · intro s o raw hmem2
      obtain ⟨e0, s0, r, tr, hep, hetr⟩ := hev _ hmem2
      obtain ⟨evs2, htr, _, _, hnorm⟩ :=
        run_train_episode_events env agent ops sc fuel e0 r s0 tr hep
      subst htr
      rcases List.mem_cons.mp hetr with hq | hq
      · simp at hq
      · exact hnorm s o raw hq

end EpisodeLemmas

section TraceLemmas

variable {σ S : Type} (env : Env σ) (agent : Agent) (scale offset : List ℚ)

/-- The normalization raw inputs of an evaluation step trace, in order. -/
theorem filterMap_raw_evalEvs (st : EpState σ) :
    ∀ ks : List Nat,
      (ks.flatMap (evalEvsAt env agent scale offset st)).filterMap Event.rawOfNormalize =
        ks.map (evalRaw env agent scale offset st)
  | [] => rfl
  | k :: ks => by
    simp only [List.flatMap_cons, List.filterMap_append, List.map_cons,
      filterMap_raw_evalEvs st ks]
    rfl

/-- The environment-step actions of an evaluation step trace, in order. -/
theorem filterMap_action_evalEvs (st : EpState σ) :
    ∀ ks : List Nat,
      (ks.flatMap (evalEvsAt env agent scale offset st)).filterMap Event.actionOfEnvStep =
        ks.map (evalActionAt env agent scale offset st)
  | [] => rfl
  | k :: ks => by
    simp only [List.flatMap_cons, List.filterMap_append, List.map_cons,
      filterMap_action_evalEvs st ks]
    rfl

/-- The environment-step actions of a training step trace, in order. -/
theorem filterMap_action_trainEvs (st : EpState σ) :
    ∀ ks : List Nat,
      (ks.flatMap (trainEvsAt env agent scale offset st)).filterMap Event.actionOfEnvStep =
        ks.map (trainActionAt env agent scale offset st)
  | [] => rfl
  | k :: ks => by
    simp only [List.flatMap_cons, List.filterMap_append, List.map_cons,
      filterMap_action_trainEvs st ks]
    rfl

end TraceLemmas

section MainLoopLemmas

variable {σ S : Type} (env : Env σ) (agent : Agent)

/-- Unfolding of one iteration of the training loop of `main`. -/
theorem mainIteration_eq (ops : ScalerOps S) (sqrtFn : ℚ → ℚ) (gamma lam : ℚ) (sc : S)
    (epb fuel : Nat) (envSt : σ) (sc2 : S) (envF : σ) (evs : List Event)
    (h : mainIteration env agent ops sqrtFn gamma lam sc epb fuel envSt = some (sc2, envF, evs)) :
    ∃ (b : Batch) (cevs : List Event),
      collect_trajectories env agent ops sc epb fuel envSt = some (b, sc2, envF, cevs) ∧
      evs = cevs ++
        [Event.calcDSR (b.rewards.map fun x => x * (1 - gamma)) gamma,
         Event.calcGAE (b.rewards.map fun x => x * (1 - gamma))
           (agent.value_predict b.observes) gamma lam,
         Event.policyLearn b.observes b.actions
           (normalizeAdv sqrtFn (calc_gae (b.rewards.map fun x => x * (1 - gamma))
             (agent.value_predict b.observes) gamma lam)),
         Event.valueLearn b.observes
           (calc_discount_sum_rewards (b.rewards.map fun x => x * (1 - gamma)) gamma)] := by
  simp only [mainIteration] at h
  cases hcol : collect_trajectories env agent ops sc epb fuel envSt with
  | none => rw [hcol] at h; simp at h
  | some x =>
    obtain ⟨b, sc0, envF0, cevs⟩ := x
    rw [hcol] at h
    obtain ⟨hsc, henv, hevs⟩ := by simpa using h
    subst hsc henv hevs
    exact ⟨b, cevs, rfl, rfl⟩

end MainLoopLemmas

/-! The episode counter of the training loop -/

theorem episodesRun_spec_aux (n epb : Nat) (h : 0 < epb) :
    ∀ m episode, n - episode ≤ m →
      n ≤ episodesRun n epb h episode ∧
      (episode < n + epb → episodesRun n epb h episode < n + epb) ∧
      (epb ∣ episode → epb ∣ episodesRun n epb h episode) := by
  intro m
  induction m with
  | zero =>
    intro episode hle
    rw [episodesRun]
    split
    · omega
    · exact ⟨by omega, fun hlt => hlt, fun hd => hd⟩
  | succ m ih =>
    intro episode hle
    rw [episodesRun]
    split
    · rename_i hlt
      obtain ⟨ih1, ih2, ih3⟩ := ih (episode + epb) (by omega)
      exact ⟨ih1, fun _ => ih2 (by omega), fun hd => ih3 (Nat.dvd_add hd dvd_rfl)⟩
    · rename_i hge
      exact ⟨by omega, fun hlt => hlt, fun hd => hd⟩

/-! Discounted sums of constant reward sequences -/

theorem headD_of_getElem? {l : List ℚ} {v : ℚ} (h : l[0]? = some v) : l.headD 0 = v := by
  cases l with
  | nil => simp at h
  | cons x xs => simpa using h

theorem calc_dsr_replicate (c gamma : ℚ) (hg : gamma ≠ 1) :
    ∀ (n : Nat) (i : Nat), i < n →
      (calc_discount_sum_rewards (List.replicate n c) gamma)[i]? =
        some (c * (1 - gamma ^ (n - i)) / (1 - gamma)) := by
  have hne : (1 : ℚ) - gamma ≠ 0 := sub_ne_zero.mpr (Ne.symm hg)
  intro n
  induction n with
  | zero => intro i hi; omega
  | succ n ih =>
    intro i hi
    rw [List.replicate_succ]
    cases i with
    | zero =>
      show (calc_discount_sum_rewards (c :: List.replicate n c) gamma)[0]? = _
      simp only [calc_discount_sum_rewards, List.getElem?_cons_zero, Nat.sub_zero]
      cases n with
      | zero =>
        simp only [List.replicate, calc_discount_sum_rewards, List.headD_nil]
        rw [Option.some.injEq]
        rw [pow_one, mul_div_assoc, div_self hne]
        ring
      | succ m =>
        have hh := ih 0 (by omega)
        rw [Nat.sub_zero] at hh
        rw [headD_of_getElem? hh, Option.some.injEq]
        field_simp
        ring
    | succ i2 =>
      show (calc_discount_sum_rewards (c :: List.replicate n c) gamma)[i2 + 1]? = _
      simp only [calc_discount_sum_rewards, List.getElem?_cons_succ]
      rw [show n + 1 - (i2 + 1) = n - i2 from by omega]
      exact ih i2 (by omega)

/-! Claims -/

/-- C1: within `collect_trajectories`, `scaler.update` is called exactly once,
after all episodes of the batch have been run, with the concatenation of the
batch's unscaled observations; every episode of the batch is run against the
scaler state from before that update (and hence every observation normalized
during those episodes uses a (scale, offset) pair read from the scaler before
the update), so for every batch the normalization statistics predate the
observations they normalize. -/
theorem collect_updates_scaler_once {σ S : Type} (env : Env σ) (agent : Agent)
    (ops : ScalerOps S) (sc : S) (episodes fuel : Nat) (envSt : σ)
    (b : Batch) (sc2 : S) (envF : σ) (evs : List Event)
    (h : collect_trajectories env agent ops sc episodes fuel envSt = some (b, sc2, envF, evs)) :
    ∃ (rs : List TrainResult) (evs0 : List Event),
      rs.length = episodes ∧
      (∀ r ∈ rs, ∃ e0 s0 tr, run_train_episode env agent ops sc fuel e0 = some (r, s0, tr)) ∧
      evs = evs0 ++ [Event.scalerUpdate ((rs.map TrainResult.unscaled_obs).flatten)] ∧
      (∀ e ∈ evs0, e.isScalerUpdate = false) ∧
      sc2 = ops.update sc ((rs.map TrainResult.unscaled_obs).flatten) ∧
      (∀ s o raw, Event.normalize s o raw ∈ evs0 →
        s = setLast (ops.get sc).1 1 ∧ o = setLast (ops.get sc).2 0) := by
  obtain ⟨rs, evs0, hlen, hb, hsc, hevs, hmem, hfacts, hnorm⟩ :=
    collect_trajectories_spec env agent ops sc episodes fuel envSt b sc2 envF evs h
  exact ⟨rs, evs0, hlen, hmem, hevs, fun e he => (hfacts e he).1, hsc, hnorm⟩

/-- C2: each step of `run_train_episode` records the raw observation with
the appended time-step feature as unscaled, normalizes it as
(obs - offset) * scale, samples a stochastic action, clips it to [-1, 1],
rescales it to the action bounds, steps the environment with it and records
the reward, repeating until the environment reports done; the function
returns exactly the per-step normalized observations, actions, rewards and
unscaled observations. -/
theorem run_train_episode_step_spec {σ S : Type} (env : Env σ) (agent : Agent)
    (ops : ScalerOps S) (sc : S) (fuel : Nat) (envSt : σ)
    (r : TrainResult) (sf : σ) (evs : List Event)
    (h : run_train_episode env agent ops sc fuel envSt = some (r, sf, evs)) :
    ∃ L, 0 < L ∧
      (let scale := setLast (ops.get sc).1 1
       let offset := setLast (ops.get sc).2 0
       let st0 : EpState σ := ⟨(env.reset envSt).1, (env.reset envSt).2, 0⟩
       r.unscaled_obs = (List.range L).map (fun k =>
         (trainTraj env agent scale offset st0 k).obs ++
           [(trainTraj env agent scale offset st0 k).t]) ∧
       r.observes = (List.range L).map (fun k =>
         normalizeObs (trainRaw env agent scale offset st0 k) offset scale) ∧
       r.actions = (List.range L).map (fun k =>
         action_mapping (npClip (agent.policy_sample (trainNormed env agent scale offset st0 k)))
           env.action_low env.action_high) ∧
       r.rewards = (List.range L).map (fun k =>
         (env.step (trainTraj env agent scale offset st0 k).env
           (trainActionAt env agent scale offset st0 k)).reward) ∧
       (∀ j, j + 1 < L → (trainOut env agent scale offset st0 j).done = false) ∧
       (trainOut env agent scale offset st0 (L - 1)).done = true) := by
  obtain ⟨o1, a1, w1, u1⟩ := r
  obtain ⟨evs2, hevs, hsteps⟩ := run_train_episode_eq env agent ops sc fuel envSt _ sf evs h
  obtain ⟨L, hL, _, ho, ha, hw, hu, _, hdone, hlast⟩ :=
    trainSteps_spec env agent _ _ fuel _ o1 a1 w1 u1 sf evs2 hsteps
  exact ⟨L, hL, hu, ho, ha, hw, hdone, hlast⟩

/-- C3: in both episode runners, the (scale, offset) pair used by every
normalization has last entry 1 respectively 0, regardless of what the
scaler returned, so the appended time-step feature passes through
normalization unchanged. -/
theorem timestep_identity_scaling {σ S : Type} (env : Env σ) (agent : Agent)
    (ops : ScalerOps S) (sc : S) (fuel : Nat) (envSt : σ)
    (h1 : (ops.get sc).1 ≠ []) (h2 : (ops.get sc).2 ≠ []) :
    (∀ r sf evs, run_train_episode env agent ops sc fuel envSt = some (r, sf, evs) →
      ∀ s o raw, Event.normalize s o raw ∈ evs →
        s.getLast? = some 1 ∧ o.getLast? = some 0 ∧
        (raw.length = s.length → raw.length = o.length →
          (normalizeObs raw o s).getLast? = raw.getLast?)) ∧
    (∀ tot sf evs, run_evaluate_episode env agent ops sc fuel envSt = some (tot, sf, evs) →
      ∀ s o raw, Event.normalize s o raw ∈ evs →
        s.getLast? = some 1 ∧ o.getLast? = some 0 ∧
        (raw.length = s.length → raw.length = o.length →
          (normalizeObs raw o s).getLast? = raw.getLast?)) := by
  constructor
  · intro r sf evs h s o raw hmem
    obtain ⟨evs2, hevs, _, _, hnorm⟩ := run_train_episode_events env agent ops sc fuel envSt r sf evs h
    subst hevs
    rcases List.mem_cons.mp hmem with hq | hq
    · simp at hq
    · obtain ⟨hs, ho⟩ := hnorm s o raw hq
      subst hs ho
      refine ⟨setLast_getLast? _ 1 h1, setLast_getLast? _ 0 h2, fun hl1 hl2 => ?_⟩
      exact normalizeObs_getLast? raw _ _ hl2 hl1 (setLast_getLast? _ 0 h2) (setLast_getLast? _ 1 h1)
  · intro tot sf evs h s o raw hmem
    obtain ⟨evs2, hevs, _, _, hnorm⟩ :=
      run_evaluate_episode_events env agent ops sc fuel envSt tot sf evs h
    subst hevs
    rcases List.mem_cons.mp hmem with hq | hq
    · simp at hq
    · obtain ⟨hs, ho⟩ := hnorm s o raw hq
      subst hs ho
      refine ⟨setLast_getLast? _ 1 h1, setLast_getLast? _ 0 h2, fun hl1 hl2 => ?_⟩
      exact normalizeObs_getLast? raw _ _ hl2 hl1 (setLast_getLast? _ 0 h2) (setLast_getLast? _ 1 h1)

/-- C4: `run_evaluate_episode` uses the deterministic `policy_predict` and
never the stochastic sampler, applies the same observation normalization
and action-bound rescaling as training, and returns exactly the sum of the
per-step rewards returned by the environment over the episode. -/
theorem run_evaluate_episode_spec {σ S : Type} (env : Env σ) (agent : Agent)
    (ops : ScalerOps S) (sc : S) (fuel : Nat) (envSt : σ)
    (tot : ℚ) (sf : σ) (evs : List Event)
    (h : run_evaluate_episode env agent ops sc fuel envSt = some (tot, sf, evs)) :
    ∃ L, 0 < L ∧
      (let scale := setLast (ops.get sc).1 1
       let offset := setLast (ops.get sc).2 0
       let st0 : EpState σ := ⟨(env.reset envSt).1, (env.reset envSt).2, 0⟩
       tot = ((List.range L).map (fun k =>
         (evalOut env agent scale offset st0 k).reward)).sum ∧
       (∀ e ∈ evs, e.isPolicySample = false) ∧
       (∀ k, evalActionAt env agent scale offset st0 k =
         action_mapping (agent.policy_predict
           (normalizeObs (evalRaw env agent scale offset st0 k) offset scale))
           env.action_low env.action_high) ∧
       (∀ j, j + 1 < L → (evalOut env agent scale offset st0 j).done = false) ∧
       (evalOut env agent scale offset st0 (L - 1)).done = true) := by
  obtain ⟨rs, evs2, hevs, htot, hsteps⟩ :=
    run_evaluate_episode_eq env agent ops sc fuel envSt tot sf evs h
  obtain ⟨L, hL, _, hrs, _, hdone, hlast⟩ :=
    evalSteps_spec env agent _ _ fuel _ rs sf evs2 hsteps
  obtain ⟨_, _, _, hsample, _⟩ :=
    run_evaluate_episode_events env agent ops sc fuel envSt tot sf evs h
  refine ⟨L, hL, ?_, fun e he => (hsample e he).2, fun k => rfl, hdone, hlast⟩
  rw [htot, hrs]

section RatEval

attribute [local semireducible] Rat.add Rat.mul Rat.sub Rat.inv

/-- C5: for a constant reward sequence of length n and discount gamma, the
discounted reverse cumulative sum at index i is
reward * (1 - gamma ^ (n - i)) / (1 - gamma); at gamma = 0.99 and rewards
[1,1,1,1,1], the value at index 0 is exactly 4.90099501. -/
theorem calc_dsr_constant :
    (∀ (n : Nat) (c gamma : ℚ), gamma ≠ 1 → ∀ i, i < n →
      (calc_discount_sum_rewards (List.replicate n c) gamma)[i]? =
        some (c * (1 - gamma ^ (n - i)) / (1 - gamma))) ∧
    (calc_discount_sum_rewards [1, 1, 1, 1, 1] (99 / 100))[0]? =
      some (490099501 / 100000000) := by
  constructor
  · intro n c gamma hg i hi
    exact calc_dsr_replicate c gamma hg n i hi
  · decide

/-- C6: the training while-loop of `main` terminates for every
`num_episodes` and positive `episodes_per_batch`: the final episode count
reaches `num_episodes`, had not reached it one batch earlier, and is a
multiple of the batch size. -/
theorem training_loop_terminates (n epb : Nat) (h : 0 < epb) :
    n ≤ episodesRun n epb h 0 ∧ episodesRun n epb h 0 < n + epb ∧
      epb ∣ episodesRun n epb h 0 := by
  obtain ⟨h1, h2, h3⟩ := episodesRun_spec_aux n epb h n 0 (by omega)
  exact ⟨h1, h2 (by omega), h3 (dvd_zero epb)⟩

/-- C7: in every training iteration, the reward sequence passed to both
the discounted-return computation and the GAE computation is the batch
rewards scaled elementwise by (1 - gamma) — each is called exactly once —
and the advantages passed to the policy update are the mean-subtracted,
epsilon-floored normalization of the GAE output. -/
theorem main_iteration_dataflow {σ S : Type} (env : Env σ) (agent : Agent)
    (ops : ScalerOps S) (sqrtFn : ℚ → ℚ) (gamma lam : ℚ) (sc : S)
    (epb fuel : Nat) (envSt : σ) (sc2 : S) (envF : σ) (evs : List Event)
    (h : mainIteration env agent ops sqrtFn gamma lam sc epb fuel envSt = some (sc2, envF, evs)) :
    ∃ (b : Batch) (cevs : List Event),
      collect_trajectories env agent ops sc epb fuel envSt = some (b, sc2, envF, cevs) ∧
      evs.filterMap Event.dsrRewards = [b.rewards.map fun x => x * (1 - gamma)] ∧
      evs.filterMap Event.gaeRewards = [b.rewards.map fun x => x * (1 - gamma)] ∧
      evs.filterMap Event.learnAdv =
        [normalizeAdv sqrtFn (calc_gae (b.rewards.map fun x => x * (1 - gamma))
          (agent.value_predict b.observes) gamma lam)] := by
  obtain ⟨b, cevs, hcol, hevs⟩ :=
    mainIteration_eq env agent ops sqrtFn gamma lam sc epb fuel envSt sc2 envF evs h
  subst hevs
  obtain ⟨rs, evs0, _, _, _, hevs0, _, hfacts, _⟩ :=
    collect_trajectories_spec env agent ops sc epb fuel envSt b sc2 envF cevs hcol
  have hnil : ∀ e ∈ cevs, Event.dsrRewards e = none ∧ Event.gaeRewards e = none ∧
      Event.learnAdv e = none := by
    intro e he
    rw [hevs0] at he
    rcases List.mem_append.mp he with he | he
    · obtain ⟨-, hd, hg, hl⟩ := hfacts e he
      exact ⟨hd, hg, hl⟩
    · obtain rfl := List.mem_singleton.mp he
      exact ⟨rfl, rfl, rfl⟩
  refine ⟨b, cevs, hcol, ?_, ?_, ?_⟩
  · rw [List.filterMap_append, List.filterMap_eq_nil_iff.mpr (fun e he => (hnil e he).1)]
    simp [Event.dsrRewards, Event.gaeRewards, Event.learnAdv]
  · rw [List.filterMap_append, List.filterMap_eq_nil_iff.mpr (fun e he => (hnil e he).2.1)]
    simp [Event.dsrRewards, Event.gaeRewards, Event.learnAdv]
  · rw [List.filterMap_append, List.filterMap_eq_nil_iff.mpr (fun e he => (hnil e he).2.2)]
    simp [Event.dsrRewards, Event.gaeRewards, Event.learnAdv]

/-- C8: in both episode runners the recorded time-step feature at the
0-based step k equals k * 1e-3 (so it starts at 0 and grows by exactly
1e-3 per environment step, strictly monotonically). -/
theorem timestep_feature_linear {σ S : Type} (env : Env σ) (agent : Agent)
    (ops : ScalerOps S) (sc : S) (fuel : Nat) (envSt : σ) :
    (∀ r sf evs, run_train_episode env agent ops sc fuel envSt = some (r, sf, evs) →
      (∀ (k : Nat) (u : List ℚ), r.unscaled_obs[k]? = some u →
        u.getLast? = some ((k : ℚ) * (1 / 1000))) ∧
      (∀ i j : Nat, i < j → j < r.unscaled_obs.length →
        ((i : ℚ) * (1 / 1000)) < ((j : ℚ) * (1 / 1000)))) ∧
    (∀ tot sf evs, run_evaluate_episode env agent ops sc fuel envSt = some (tot, sf, evs) →
      (∀ (k : Nat) (raw : List ℚ), (evs.filterMap Event.rawOfNormalize)[k]? = some raw →
        raw.getLast? = some ((k : ℚ) * (1 / 1000))) ∧
      (∀ i j : Nat, i < j → j < (evs.filterMap Event.rawOfNormalize).length →
        ((i : ℚ) * (1 / 1000)) < ((j : ℚ) * (1 / 1000)))) := by
  have hmono : ∀ i j : Nat, i < j → ((i : ℚ) * (1 / 1000)) < ((j : ℚ) * (1 / 1000)) := by
    intro i j hij
    have h1 : (i : ℚ) < (j : ℚ) := by exact_mod_cast hij
    have h2 : (0 : ℚ) < 1 / 1000 := by norm_num
    exact mul_lt_mul_of_pos_right h1 h2
  constructor
  · intro r sf evs h
    obtain ⟨o1, a1, w1, u1⟩ := r
    obtain ⟨evs2, hevs, hsteps⟩ := run_train_episode_eq env agent ops sc fuel envSt _ sf evs h
    obtain ⟨L, hL, _, _, _, _, hu, _, _, _⟩ :=
      trainSteps_spec env agent _ _ fuel _ o1 a1 w1 u1 sf evs2 hsteps
    refine ⟨?_, fun i j hij _ => hmono i j hij⟩
    intro k u hk
    dsimp only at hk
    rw [hu] at hk
    have hkL : k < L := by
      by_contra hkL
      have hnone : ((List.range L).map (trainRaw env agent (setLast (ops.get sc).1 1)
          (setLast (ops.get sc).2 0) ⟨(env.reset envSt).1, (env.reset envSt).2, 0⟩))[k]? = none :=
        List.getElem?_eq_none (by simp; omega)
      rw [hnone] at hk
      exact Option.noConfusion hk
    rw [List.getElem?_map, List.getElem?_range hkL] at hk
    obtain rfl : trainRaw env agent _ _ _ k = u := by simpa using hk
    rw [trainRaw_getLast?, trainTraj_t]
    simp
  · intro tot sf evs h
    obtain ⟨rs, evs2, hevs, htot, hsteps⟩ :=
      run_evaluate_episode_eq env agent ops sc fuel envSt tot sf evs h
    obtain ⟨L, hL, _, _, he2, _, _⟩ := evalSteps_spec env agent _ _ fuel _ rs sf evs2 hsteps
    subst he2 hevs
    rw [List.filterMap_cons_none rfl,
      filterMap_raw_evalEvs env agent _ _ _ (List.range L)]
    refine ⟨?_, fun i j hij _ => hmono i j hij⟩
    intro k raw hk
    have hkL : k < L := by
      by_contra hkL
      have hnone : ((List.range L).map (evalRaw env agent (setLast (ops.get sc).1 1)
          (setLast (ops.get sc).2 0) ⟨(env.reset envSt).1, (env.reset envSt).2, 0⟩))[k]? = none :=
        List.getElem?_eq_none (by simp; omega)
      rw [hnone] at hk
      exact Option.noConfusion hk
    rw [List.getElem?_map, List.getElem?_range hkL] at hk
    obtain rfl : evalRaw env agent _ _ _ k = raw := by simpa using hk
    rw [evalRaw_getLast?, evalTraj_t]
    simp

/-- C9: in evaluation, the deterministic prediction is passed to
`action_mapping` without clipping, while training clips the sample first;
with the concrete agent below, whose prediction [3] lies outside [-1, 1],
the evaluation episode steps the environment with the rescaled-as-is
action [6], which the clipped pipeline would have mapped to [2]. -/
theorem evaluate_action_not_clipped {σ S : Type} (env : Env σ) (agent : Agent)
    (ops : ScalerOps S) (sc : S) (fuel : Nat) (envSt : σ) :
    (∀ tot sf evs, run_evaluate_episode env agent ops sc fuel envSt = some (tot, sf, evs) →
      ∃ L, 0 < L ∧
        evs.filterMap Event.actionOfEnvStep = (List.range L).map (fun k =>
          action_mapping (agent.policy_predict
            (evalNormed env agent (setLast (ops.get sc).1 1) (setLast (ops.get sc).2 0)
              ⟨(env.reset envSt).1, (env.reset envSt).2, 0⟩ k))
            env.action_low env.action_high)) ∧
    (∀ r sf evs, run_train_episode env agent ops sc fuel envSt = some (r, sf, evs) →
      ∃ L, 0 < L ∧
        evs.filterMap Event.actionOfEnvStep = (List.range L).map (fun k =>
          action_mapping (npClip (agent.policy_sample
            (trainNormed env agent (setLast (ops.get sc).1 1) (setLast (ops.get sc).2 0)
              ⟨(env.reset envSt).1, (env.reset envSt).2, 0⟩ k)))
            env.action_low env.action_high)) ∧
    (∃ tot sf evs, run_evaluate_episode wEnv wAgent wOps 0 1 0 = some (tot, sf, evs) ∧
      Event.envStep (action_mapping (wAgent.policy_predict [-9, 0])
        wEnv.action_low wEnv.action_high) 2 ∈ evs ∧
      action_mapping (wAgent.policy_predict [-9, 0]) wEnv.action_low wEnv.action_high = [6] ∧
      action_mapping (npClip (wAgent.policy_predict [-9, 0]))
        wEnv.action_low wEnv.action_high = [2] ∧
      ¬ ([6] : List ℚ) = [2]) := by
  refine ⟨?_, ?_, ?_⟩
  · intro tot sf evs h
    obtain ⟨rs, evs2, hevs, htot, hsteps⟩ :=
      run_evaluate_episode_eq env agent ops sc fuel envSt tot sf evs h
    obtain ⟨L, hL, _, _, he2, _, _⟩ := evalSteps_spec env agent _ _ fuel _ rs sf evs2 hsteps
    subst he2 hevs
    refine ⟨L, hL, ?_⟩
    rw [List.filterMap_cons_none rfl,
      filterMap_action_evalEvs env agent _ _ _ (List.range L)]
    rfl
  · intro r sf evs h
    obtain ⟨o1, a1, w1, u1⟩ := r
    obtain ⟨evs2, hevs, hsteps⟩ := run_train_episode_eq env agent ops sc fuel envSt _ sf evs h
    obtain ⟨L, hL, _, _, _, _, _, he2, _, _⟩ :=
      trainSteps_spec env agent _ _ fuel _ o1 a1 w1 u1 sf evs2 hsteps
    subst he2 hevs
    refine ⟨L, hL, ?_⟩
    rw [List.filterMap_cons_none rfl,
      filterMap_action_trainEvs env agent _ _ _ (List.range L)]
    rfl
  · exact ⟨2, 1,
      [Event.scalerGet [3, 5] [7, 9], Event.normalize [3, 1] [7, 0] [4, 0],
       Event.policyPredict [-9, 0], Event.envStep [6] 2],
      by decide, by decide, by decide, by decide, by decide⟩

/-- C10: within a single episode, training or evaluation, the (scale,
offset) pair is read from the scaler exactly once, at the head of the
trace before the first step, and every normalization of that episode uses
that same (setLast-adjusted) pair. -/
theorem scaler_read_once_per_episode {σ S : Type} (env : Env σ) (agent : Agent)
    (ops : ScalerOps S) (sc : S) (fuel : Nat) (envSt : σ) :
    (∀ r sf evs, run_train_episode env agent ops sc fuel envSt = some (r, sf, evs) →
      ∃ evs2, evs = Event.scalerGet (ops.get sc).1 (ops.get sc).2 :: evs2 ∧
        (∀ e ∈ evs2, Event.isScalerGet e = false) ∧
        (∀ s o raw, Event.normalize s o raw ∈ evs2 →
          s = setLast (ops.get sc).1 1 ∧ o = setLast (ops.get sc).2 0)) ∧
    (∀ tot sf evs, run_evaluate_episode env agent ops sc fuel envSt = some (tot, sf, evs) →
      ∃ evs2, evs = Event.scalerGet (ops.get sc).1 (ops.get sc).2 :: evs2 ∧
        (∀ e ∈ evs2, Event.isScalerGet e = false) ∧
        (∀ s o raw, Event.normalize s o raw ∈ evs2 →
          s = setLast (ops.get sc).1 1 ∧ o = setLast (ops.get sc).2 0)) := by
  constructor
  · intro r sf evs h
    obtain ⟨evs2, hevs, hget, _, hnorm⟩ :=
      run_train_episode_events env agent ops sc fuel envSt r sf evs h
    exact ⟨evs2, hevs, hget, hnorm⟩
  · intro tot sf evs h
    obtain ⟨evs2, hevs, hget, _, hnorm⟩ :=
      run_evaluate_episode_events env agent ops sc fuel envSt tot sf evs h
    exact ⟨evs2, hevs, hget, hnorm⟩

/-! Witnesses: the claims evaluated at a concrete environment, agent and scaler -/

theorem collect_updates_scaler_once_witness :
    ∃ (rs : List TrainResult) (evs0 : List Event),
      rs.length = 2 ∧
      (∀ r ∈ rs, ∃ e0 s0 tr, run_train_episode wEnv wAgent wOps 0 1 e0 = some (r, s0, tr)) ∧
      [Event.scalerGet [3, 5] [7, 9], Event.normalize [3, 1] [7, 0] [4, 0],
       Event.policySample [-9, 0], Event.envStep [2] 2,
       Event.scalerGet [3, 5] [7, 9], Event.normalize [3, 1] [7, 0] [4, 0],
       Event.policySample [-9, 0], Event.envStep [2] 2,
       Event.scalerUpdate [[4, 0], [4, 0]]] =
        evs0 ++ [Event.scalerUpdate ((rs.map TrainResult.unscaled_obs).flatten)] ∧
      (∀ e ∈ evs0, Event.isScalerUpdate e = false) ∧
      2 = wOps.update 0 ((rs.map TrainResult.unscaled_obs).flatten) ∧
      (∀ s o raw, Event.normalize s o raw ∈ evs0 →
        s = setLast (wOps.get 0).1 1 ∧ o = setLast (wOps.get 0).2 0) :=
  collect_updates_scaler_once wEnv wAgent wOps 0 2 1 0
    ⟨[[-9, 0], [-9, 0]], [[2], [2]], [2, 2]⟩ 2 2 _ (by decide)

theorem run_train_episode_step_spec_witness :
    ∃ L, 0 < L ∧
      (let scale := setLast (wOps.get 0).1 1
       let offset := setLast (wOps.get 0).2 0
       let st0 : EpState Nat := ⟨(wEnv.reset 0).1, (wEnv.reset 0).2, 0⟩
       ([[4, 0]] : List (List ℚ)) = (List.range L).map (fun k =>
         (trainTraj wEnv wAgent scale offset st0 k).obs ++
           [(trainTraj wEnv wAgent scale offset st0 k).t]) ∧
       ([[-9, 0]] : List (List ℚ)) = (List.range L).map (fun k =>
         normalizeObs (trainRaw wEnv wAgent scale offset st0 k) offset scale) ∧
       ([[2]] : List (List ℚ)) = (List.range L).map (fun k =>
         action_mapping (npClip (wAgent.policy_sample (trainNormed wEnv wAgent scale offset st0 k)))
           wEnv.action_low wEnv.action_high) ∧
       ([2] : List ℚ) = (List.range L).map (fun k =>
         (wEnv.step (trainTraj wEnv wAgent scale offset st0 k).env
           (trainActionAt wEnv wAgent scale offset st0 k)).reward) ∧
       (∀ j, j + 1 < L → (trainOut wEnv wAgent scale offset st0 j).done = false) ∧
       (trainOut wEnv wAgent scale offset st0 (L - 1)).done = true) :=
  run_train_episode_step_spec wEnv wAgent wOps 0 1 0
    ⟨[[-9, 0]], [[2]], [2], [[4, 0]]⟩ 1
    [Event.scalerGet [3, 5] [7, 9], Event.normalize [3, 1] [7, 0] [4, 0],
     Event.policySample [-9, 0], Event.envStep [2] 2] (by decide)

theorem timestep_identity_scaling_witness :
    ([3, 1] : List ℚ).getLast? = some 1 ∧ ([7, 0] : List ℚ).getLast? = some 0 ∧
      (([4, 0] : List ℚ).length = ([3, 1] : List ℚ).length →
       ([4, 0] : List ℚ).length = ([7, 0] : List ℚ).length →
       (normalizeObs [4, 0] [7, 0] [3, 1]).getLast? = ([4, 0] : List ℚ).getLast?) :=
  (timestep_identity_scaling wEnv wAgent wOps 0 1 0 (by decide) (by decide)).1
    ⟨[[-9, 0]], [[2]], [2], [[4, 0]]⟩ 1
    [Event.scalerGet [3, 5] [7, 9], Event.normalize [3, 1] [7, 0] [4, 0],
     Event.policySample [-9, 0], Event.envStep [2] 2] (by decide)
    [3, 1] [7, 0] [4, 0] (by decide)

theorem run_evaluate_episode_spec_witness :
    ∃ L, 0 < L ∧
      (let scale := setLast (wOps.get 0).1 1
       let offset := setLast (wOps.get 0).2 0
       let st0 : EpState Nat := ⟨(wEnv.reset 0).1, (wEnv.reset 0).2, 0⟩
       (2 : ℚ) = ((List.range L).map (fun k =>
         (evalOut wEnv wAgent scale offset st0 k).reward)).sum ∧
       (∀ e ∈ [Event.scalerGet [3, 5] [7, 9], Event.normalize [3, 1] [7, 0] [4, 0],
               Event.policyPredict [-9, 0], Event.envStep [6] 2],
          Event.isPolicySample e = false) ∧
       (∀ k, evalActionAt wEnv wAgent scale offset st0 k =
         action_mapping (wAgent.policy_predict
           (normalizeObs (evalRaw wEnv wAgent scale offset st0 k) offset scale))
           wEnv.action_low wEnv.action_high) ∧
       (∀ j, j + 1 < L → (evalOut wEnv wAgent scale offset st0 j).done = false) ∧
       (evalOut wEnv wAgent scale offset st0 (L - 1)).done = true) :=
  run_evaluate_episode_spec wEnv wAgent wOps 0 1 0 2 1
    [Event.scalerGet [3, 5] [7, 9], Event.normalize [3, 1] [7, 0] [4, 0],
     Event.policyPredict [-9, 0], Event.envStep [6] 2] (by decide)

theorem calc_dsr_constant_witness :
    (99 / 100 : ℚ) ≠ 1 ∧ 0 < 5 ∧
      (calc_discount_sum_rewards (List.replicate 5 (1 : ℚ)) (99 / 100))[0]? =
        some (1 * (1 - (99 / 100 : ℚ) ^ (5 - 0)) / (1 - 99 / 100)) :=
  ⟨by decide, by decide, calc_dsr_constant.1 5 1 (99 / 100) (by decide) 0 (by decide)⟩

theorem training_loop_terminates_witness :
    0 < 3 ∧ (10 ≤ episodesRun 10 3 (Nat.succ_pos 2) 0 ∧
      episodesRun 10 3 (Nat.succ_pos 2) 0 < 10 + 3 ∧
      3 ∣ episodesRun 10 3 (Nat.succ_pos 2) 0) :=
  ⟨Nat.succ_pos 2, training_loop_terminates 10 3 (Nat.succ_pos 2)⟩

theorem main_iteration_dataflow_witness :
    ∃ (b : Batch) (cevs : List Event),
      collect_trajectories wEnv wAgent wOps 0 2 1 0 = some (b, 2, 2, cevs) ∧
      ([Event.scalerGet [3, 5] [7, 9], Event.normalize [3, 1] [7, 0] [4, 0],
        Event.policySample [-9, 0], Event.envStep [2] 2,
        Event.scalerGet [3, 5] [7, 9], Event.normalize [3, 1] [7, 0] [4, 0],
        Event.policySample [-9, 0], Event.envStep [2] 2,
        Event.scalerUpdate [[4, 0], [4, 0]],
        Event.calcDSR [-2, -2] 2,
        Event.calcGAE [-2, -2] [0, 0] 2 0,
        Event.policyLearn [[-9, 0], [-9, 0]] [[2], [2]] [0, 0],
        Event.valueLearn [[-9, 0], [-9, 0]] [-6, -2]]).filterMap Event.dsrRewards =
        [b.rewards.map fun x => x * (1 - 2)] ∧
      ([Event.scalerGet [3, 5] [7, 9], Event.normalize [3, 1] [7, 0] [4, 0],
        Event.policySample [-9, 0], Event.envStep [2] 2,
        Event.scalerGet [3, 5] [7, 9], Event.normalize [3, 1] [7, 0] [4, 0],
        Event.policySample [-9, 0], Event.envStep [2] 2,
        Event.scalerUpdate [[4, 0], [4, 0]],
        Event.calcDSR [-2, -2] 2,
        Event.calcGAE [-2, -2] [0, 0] 2 0,
        Event.policyLearn [[-9, 0], [-9, 0]] [[2], [2]] [0, 0],
        Event.valueLearn [[-9, 0], [-9, 0]] [-6, -2]]).filterMap Event.gaeRewards =
        [b.rewards.map fun x => x * (1 - 2)] ∧
      ([Event.scalerGet [3, 5] [7, 9], Event.normalize [3, 1] [7, 0] [4, 0],
        Event.policySample [-9, 0], Event.envStep [2] 2,
        Event.scalerGet [3, 5] [7, 9], Event.normalize [3, 1] [7, 0] [4, 0],
        Event.policySample [-9, 0], Event.envStep [2] 2,
        Event.scalerUpdate [[4, 0], [4, 0]],
        Event.calcDSR [-2, -2] 2,
        Event.calcGAE [-2, -2] [0, 0] 2 0,
        Event.policyLearn [[-9, 0], [-9, 0]] [[2], [2]] [0, 0],
        Event.valueLearn [[-9, 0], [-9, 0]] [-6, -2]]).filterMap Event.learnAdv =
        [normalizeAdv (fun _ => 0) (calc_gae (b.rewards.map fun x => x * (1 - 2))
          (wAgent.value_predict b.observes) 2 0)] :=
  main_iteration_dataflow wEnv wAgent wOps (fun _ => 0) 2 0 0 2 1 0 2 2 _ (by decide)

theorem timestep_feature_linear_witness :
    (∀ (k : Nat) (u : List ℚ), (([[4, 0]] : List (List ℚ)))[k]? = some u →
      u.getLast? = some ((k : ℚ) * (1 / 1000))) ∧
    (∀ (k : Nat) (raw : List ℚ),
      (([Event.scalerGet [3, 5] [7, 9], Event.normalize [3, 1] [7, 0] [4, 0],
        Event.policyPredict [-9, 0],
        Event.envStep [6] 2]).filterMap Event.rawOfNormalize)[k]? = some raw →
      raw.getLast? = some ((k : ℚ) * (1 / 1000))) :=
  ⟨((timestep_feature_linear wEnv wAgent wOps 0 1 0).1
      ⟨[[-9, 0]], [[2]], [2], [[4, 0]]⟩ 1
      [Event.scalerGet [3, 5] [7, 9], Event.normalize [3, 1] [7, 0] [4, 0],
       Event.policySample [-9, 0], Event.envStep [2] 2] (by decide)).1,
   ((timestep_feature_linear wEnv wAgent wOps 0 1 0).2 2 1
      [Event.scalerGet [3, 5] [7, 9], Event.normalize [3, 1] [7, 0] [4, 0],
       Event.policyPredict [-9, 0], Event.envStep [6] 2] (by decide)).1⟩

theorem evaluate_action_not_clipped_witness :
    ∃ L, 0 < L ∧
      ([Event.scalerGet [3, 5] [7, 9], Event.normalize [3, 1] [7, 0] [4, 0],
        Event.policyPredict [-9, 0],
        Event.envStep [6] 2]).filterMap Event.actionOfEnvStep =
        (List.range L).map (fun k =>
          action_mapping (wAgent.policy_predict
            (evalNormed wEnv wAgent (setLast (wOps.get 0).1 1) (setLast (wOps.get 0).2 0)
              ⟨(wEnv.reset 0).1, (wEnv.reset 0).2, 0⟩ k))
            wEnv.action_low wEnv.action_high) :=
  (evaluate_action_not_clipped wEnv wAgent wOps 0 1 0).1 2 1
    [Event.scalerGet [3, 5] [7, 9], Event.normalize [3, 1] [7, 0] [4, 0],
     Event.policyPredict [-9, 0], Event.envStep [6] 2] (by decide)

theorem scaler_read_once_per_episode_witness :
    ∃ evs2, [Event.scalerGet [3, 5] [7, 9], Event.normalize [3, 1] [7, 0] [4, 0],
        Event.policySample [-9, 0], Event.envStep [2] 2] =
        Event.scalerGet (wOps.get 0).1 (wOps.get 0).2 :: evs2 ∧
      (∀ e ∈ evs2, Event.isScalerGet e = false) ∧
      (∀ s o raw, Event.normalize s o raw ∈ evs2 →
        s = setLast (wOps.get 0).1 1 ∧ o = setLast (wOps.get 0).2 0) :=
  (scaler_read_once_per_episode wEnv wAgent wOps 0 1 0).1
    ⟨[[-9, 0]], [[2]], [2], [[4, 0]]⟩ 1
    [Event.scalerGet [3, 5] [7, 9], Event.normalize [3, 1] [7, 0] [4, 0],
     Event.policySample [-9, 0], Event.envStep [2] 2] (by decide)

end RatEval

end PPOTrain
